import Mathlib

/-!
Verification of the paths-filter matching engine (`src/filter.ts`,
`src/file.ts`, `src/main.ts`).

The TypeScript source is shallowly embedded: classes become structures,
methods become functions, the glob matcher (picomatch, an external
collaborator) becomes an abstract `String → Bool` predicate supplied as a
parameter, JavaScript string truthiness (`if (s)`) becomes an explicit
non-emptiness test, the JS `Set` used for path variants becomes an
insertion-ordered duplicate-free list, and exceptions become `Except`.
-/

namespace PathsFilter

/-- `ChangeStatus` from `src/file.ts`: a TS string enum with the six
change-status values. -/
inductive ChangeStatus where
  | added
  | copied
  | deleted
  | modified
  | renamed
  | unmerged
deriving DecidableEq, Repr

/-- The string value of a `ChangeStatus` member (the TS enum is
string-valued, so comparisons in the source are string comparisons). -/
def ChangeStatus.toStr : ChangeStatus → String
  | .added => "added"
  | .copied => "copied"
  | .deleted => "deleted"
  | .modified => "modified"
  | .renamed => "renamed"
  | .unmerged => "unmerged"

/-- `File` from `src/file.ts` (plus the `previous_filename` field that
`filter.ts` and `main.ts` read off the object).  Required TS string fields
stay `String`; optional fields become `Option String`. -/
structure File where
  filename : String
  status : ChangeStatus
  «from» : String
  «to» : Option String := none
  similarity : Option Nat := none
  previous_filename : Option String := none
deriving DecidableEq, Repr

/-- `FilterRuleItem` from `src/filter.ts`.  `status` keeps the raw strings
the parser produced (the TS cast `as ChangeStatus[]` performs no
validation); `isMatch` is the compiled glob predicate; the optional
`negate` flag is embedded as a `Bool` (in the source `undefined` and
`false` are indistinguishable to every consumer, which only tests
truthiness). -/
structure FilterRuleItem where
  status : Option (List String) := none
  isMatch : String → Bool
  negate : Bool := false

/-- `IgnorePattern` from `src/filter.ts`. -/
structure IgnorePattern where
  matcher : String → Bool
  negated : Bool

/-- `PredicateQuantifier` from `src/filter.ts`. -/
inductive PredicateQuantifier where
  | every
  | some
deriving DecidableEq, Repr

/-- `FilterConfig` from `src/filter.ts`.  The `globalIgnore` path is not
kept here: reading that file is I/O done once in the constructor, and the
resulting compiled patterns are the `globalIgnorePatterns` field of
`Filter` below; `parseGlobalIgnoreContent` models the processing of the
file's content.  The optional `strictExcludes` flag is embedded as a
`Bool` (`undefined` and `false` agree on every truthiness test). -/
structure FilterConfig where
  predicateQuantifier : PredicateQuantifier
  strictExcludes : Bool := false
deriving DecidableEq, Repr

/-- The `Filter` instance state after construction: the parsed rules (a JS
`Map`, i.e. an insertion-ordered association list), the compiled global
ignore patterns, and the configuration. -/
structure Filter where
  rules : List (String × List FilterRuleItem)
  globalIgnorePatterns : List IgnorePattern := []
  filterConfig : FilterConfig

/-- JS `Set.add` on an insertion-ordered list: appends unless present. -/
def addVariant (vs : List String) (v : String) : List String :=
  if v ∈ vs then vs else vs ++ [v]

/-- The `shouldIncludeSourcePaths` condition computed inside
`Filter.getFilePathVariants` (filter.ts lines 211–216). -/
def shouldIncludeSourcePaths (file : File) (rule : FilterRuleItem) : Bool :=
  let statuses := rule.status.getD []
  let targetsRenamedStatus := statuses.contains "renamed"
  (!rule.negate && targetsRenamedStatus) ||
    (!targetsRenamedStatus && !(file.status == ChangeStatus.renamed) &&
      !(file.status == ChangeStatus.copied))

/-- `Filter.getFilePathVariants` (filter.ts lines 203–227).  The JS `Set`
is embedded as the insertion-ordered duplicate-free list built by
`addVariant`; the truthiness guards `if (file.to)`, `… && file.from`,
`… && file.previous_filename` hold exactly when the string is present and
non-empty. -/
def getFilePathVariants (file : File) (rule : FilterRuleItem) : List String :=
  let variants := addVariant [] file.filename
  let variants :=
    match file.«to» with
    | Option.some t => if t == "" then variants else addVariant variants t
    | none => variants
  let variants :=
    if shouldIncludeSourcePaths file rule && !(file.«from» == "") then
      addVariant variants file.«from»
    else variants
  let variants :=
    match file.previous_filename with
    | Option.some p =>
        if shouldIncludeSourcePaths file rule && !(p == "") then
          addVariant variants p
        else variants
    | none => variants
  variants

/-- The `aPredicate` closure inside `Filter.isMatch` (filter.ts lines
181–189): status constraint, then some path variant must satisfy the
rule's glob predicate.  `!rule.status` in JS is true only for `undefined`
(an empty array is truthy, and `[].includes(x)` is false). -/
def aPredicate (file : File) (rule : FilterRuleItem) : Bool :=
  let statusMatch :=
    match rule.status with
    | none => true
    | Option.some l => l.contains file.status.toStr
  if !statusMatch then false
  else (getFilePathVariants file rule).any rule.isMatch

/-- `Filter.isMatch` (filter.ts lines 177–201). -/
def Filter.isMatch (cfg : FilterConfig) (file : File)
    (rules : List FilterRuleItem) : Bool :=
  let positives := rules.filter (fun r => !r.negate)
  let negatives := rules.filter (fun r => r.negate)
  let positiveMatch :=
    if positives.isEmpty then true
    else if cfg.predicateQuantifier == PredicateQuantifier.every then
      positives.all (aPredicate file)
    else positives.any (aPredicate file)
  let negativeMatch := negatives.any (aPredicate file)
  positiveMatch && !negativeMatch

/-- The global-ignore filtering step of `Filter.match` (filter.ts lines
137–140): keep a file unless some non-negated ignore pattern matches its
filename. -/
def Filter.globalFiltered (flt : Filter) (files : List File) : List File :=
  files.filter (fun file =>
    !(flt.globalIgnorePatterns.any (fun ig =>
      ig.matcher file.filename && !ig.negated)))

/-- `allNegativePatterns` inside `Filter.match` (filter.ts lines 147–150):
the glob predicates of every `negate=true` rule across every group. -/
def Filter.allNegativePatterns (flt : Filter) : List (String → Bool) :=
  (((flt.rules.map Prod.snd).flatten).filter (fun r => r.negate)).map
    (fun r => r.isMatch)

/-- `hasExcludedFile` inside `Filter.match` (filter.ts lines 152–154):
some file's `filename` matches some negative pattern. -/
def Filter.hasExcludedFile (flt : Filter) (files : List File) : Bool :=
  files.any (fun file =>
    (Filter.allNegativePatterns flt).any (fun negPattern =>
      negPattern file.filename))

/-- `Filter.match` (filter.ts lines 133–175): global-ignore filtering,
the strict-excludes short-circuit, then per-group evaluation in rule-map
insertion order.  (The `core.info`/`core.warning` logging calls are pure
side channels with no effect on the result and are not modelled.) -/
def Filter.«match» (flt : Filter) (files : List File) :
    List (String × List File) :=
  let filteredFiles := Filter.globalFiltered flt files
  let filteredFiles :=
    if flt.filterConfig.strictExcludes &&
        Filter.hasExcludedFile flt filteredFiles then
      ([] : List File)
    else filteredFiles
  flt.rules.map (fun kr =>
    (kr.1, filteredFiles.filter (fun file =>
      Filter.isMatch flt.filterConfig file kr.2)))

/-- The state-passing embedding of the `match` method: a call returns its
result together with the instance state after the call.  The source method
(filter.ts lines 133–175) reads only the `readonly` fields `rules`,
`globalIgnorePatterns` and `filterConfig` and assigns no instance field
(`filteredFiles`, `results` and the loop variables are locals), so the
state after the call is the state before it. -/
def Filter.matchWithState (flt : Filter) (files : List File) :
    List (String × List File) × Filter :=
  (Filter.«match» flt files, flt)

/-- A YAML value as `js-yaml` delivers it to the constructor: string,
number, boolean, null, sequence, or mapping (an insertion-ordered
association list with the string keys JS objects have). -/
inductive YamlValue where
  | str (s : String)
  | num (n : Int)
  | boolean (b : Bool)
  | null
  | arr (items : List YamlValue)
  | obj (entries : List (String × YamlValue))

/-- The JS `typeof` of a `YamlValue` (`typeof null` is `"object"`, and so
is the `typeof` of an array). -/
def YamlValue.typeofStr : YamlValue → String
  | .str _ => "string"
  | .num _ => "number"
  | .boolean _ => "boolean"
  | .null => "object"
  | .arr _ => "object"
  | .obj _ => "object"

/-- An exception escaping the `Filter` constructor: either one of the
deliberate `Invalid filter YAML format: …` errors (the constructor's
`Expected object` check or `throwInvalidFormatError`), or a JS runtime
`TypeError` (raised when `p.startsWith` is called on a value that is not a
string, filter.ts lines 245 and 264). -/
inductive ParseError where
  | invalidFormat (msg : String)
  | typeError (msg : String)
deriving DecidableEq, Repr

/-- The rule built from one pattern string in the string /
status-object branches of `parseFilterItemYaml`: strip a leading `!` into
the `negate` flag and compile the rest. -/
def parseStringRule (pm : String → String → Bool) (item : String) :
    FilterRuleItem :=
  let negated := item.startsWith "!"
  let pattern := if negated then item.drop 1 else item
  { status := none, isMatch := pm pattern, negate := negated }

/-- The status set built from a status-object key (filter.ts lines
267–271): split on `|`, trim, drop empties, lowercase.  The TS cast
`as ChangeStatus[]` validates nothing, so the result stays `List String`. -/
def parseStatusKey (key : String) : List String :=
  (((key.splitOn "|").map String.trim).filter
    (fun x => decide (x.length > 0))).map String.toLower

mutual

/-- `Filter.parseFilterItemYaml` (filter.ts lines 229–280), with the glob
compiler `pm` abstract and exceptions as `Except`.  Branch order follows
the source: array, string, object (`paths-ignore` key first), then the
`Unexpected element type` error for numbers, booleans and `null`. -/
def parseFilterItemYaml (pm : String → String → Bool) :
    YamlValue → Except ParseError (List FilterRuleItem)
  | .arr items => do
      let parsed ← parseItemList pm items
      pure parsed.flatten
  | .str item => pure [parseStringRule pm item]
  | .obj entries =>
      if (entries.map Prod.fst).contains "paths-ignore" then
        let v := ((entries.find? (fun e => e.1 == "paths-ignore")).map
          Prod.snd).getD YamlValue.null
        let patterns :=
          match v with
          | .arr xs => xs
          | other => [other]
        parsePathsIgnorePatterns pm patterns
      else parseObjEntries pm entries
  | other =>
      .error (.invalidFormat
        ("Unexpected element type '" ++ other.typeofStr ++ "'"))

/-- `item.map((i) => this.parseFilterItemYaml(i))` over an array: parse in
order, propagating the first thrown error. -/
def parseItemList (pm : String → String → Bool) :
    List YamlValue → Except ParseError (List (List FilterRuleItem))
  | [] => pure []
  | i :: rest => do
      let r ← parseFilterItemYaml pm i
      let rs ← parseItemList pm rest
      pure (r :: rs)

/-- The `paths-ignore` branch (filter.ts lines 242–253): every pattern
becomes a rule with `negate` forced `true` and no status; a leading `!` is
stripped before compiling but does not toggle `negate`.  A non-string
pattern makes `p.startsWith` throw a `TypeError`. -/
def parsePathsIgnorePatterns (pm : String → String → Bool) :
    List YamlValue → Except ParseError (List FilterRuleItem)
  | [] => pure []
  | .str p :: rest => do
      let negated := p.startsWith "!"
      let pat := if negated then p.drop 1 else p
      let rs ← parsePathsIgnorePatterns pm rest
      pure ({ status := none, isMatch := pm pat, negate := true } :: rs)
  | _ :: _ => .error (.typeError "p.startsWith is not a function")

/-- The status-object branch (filter.ts lines 255–276):
`Object.entries(item).flatMap`, throwing `Invalid filter YAML format` when
an entry's value is neither a string nor an array (the key, coming from
`Object.entries`, is always a string). -/
def parseObjEntries (pm : String → String → Bool) :
    List (String × YamlValue) → Except ParseError (List FilterRuleItem)
  | [] => pure []
  | (key, pattern) :: rest =>
      match pattern with
      | .str s => do
          let rules ← parseStatusPatterns pm key [YamlValue.str s]
          let moreRules ← parseObjEntries pm rest
          pure (rules ++ moreRules)
      | .arr xs => do
          let rules ← parseStatusPatterns pm key xs
          let moreRules ← parseObjEntries pm rest
          pure (rules ++ moreRules)
      | v =>
          .error (.invalidFormat
            ("Expected [key:string]= pattern:string | string[], but [" ++
              key ++ ":string]= " ++ v.typeofStr ++ " found"))

/-- `patterns.map((p) => …)` inside the status-object branch (filter.ts
lines 262–275): one rule per pattern, carrying the status set parsed from
the key.  A non-string pattern makes `p.startsWith` throw a `TypeError`. -/
def parseStatusPatterns (pm : String → String → Bool) (key : String) :
    List YamlValue → Except ParseError (List FilterRuleItem)
  | [] => pure []
  | .str p :: rest => do
      let negated := p.startsWith "!"
      let pat := if negated then p.drop 1 else p
      let rs ← parseStatusPatterns pm key rest
      pure ({ status := Option.some (parseStatusKey key),
              isMatch := pm pat, negate := negated } :: rs)
  | _ :: _ => .error (.typeError "p.startsWith is not a function")

end

/-- `Object.entries` of a loaded YAML document that passed the
constructor's `typeof parsed !== 'object' || parsed === null` check: a
mapping gives its entries, an array gives index-keyed entries. -/
def objEntriesOf : YamlValue → List (String × YamlValue)
  | .obj entries => entries
  | .arr items => (items.enum.map (fun iv => (toString iv.1, iv.2)))
  | _ => []

/-- `for (const [key, item] of Object.entries(parsed))
this.rules.set(key, this.parseFilterItemYaml(item))`: build the rule map
in document order, propagating the first thrown error. -/
def parseFilterGroups (pm : String → String → Bool) :
    List (String × YamlValue) →
      Except ParseError (List (String × List FilterRuleItem))
  | [] => pure []
  | (k, v) :: rest => do
      let rules ← parseFilterItemYaml pm v
      let groups ← parseFilterGroups pm rest
      pure ((k, rules) :: groups)

/-- The rules-document part of the `Filter` constructor (filter.ts lines
104–107 and 123–126): reject a root that is not a JS object (strings,
numbers, booleans and `null`; `typeof` of an array or `null` is
`"object"`, and `null` is rejected by the explicit `=== null` check),
then parse each entry. -/
def parseFilterRoot (pm : String → String → Bool) (parsed : YamlValue) :
    Except ParseError (List (String × List FilterRuleItem)) :=
  match parsed with
  | .str _ => .error (.invalidFormat "Expected object")
  | .num _ => .error (.invalidFormat "Expected object")
  | .boolean _ => .error (.invalidFormat "Expected object")
  | .null => .error (.invalidFormat "Expected object")
  | v => parseFilterGroups pm (objEntriesOf v)

/-- The global-ignore loading in the constructor (filter.ts lines
110–121), applied to the content of the configured file.  The source
splits on the regex `\r?\n` and trims each piece; splitting on `"\n"`
and trimming is the same function, since the only difference is a
trailing `"\r"` on a piece, which `trim` removes. -/
def parseGlobalIgnoreContent (pm : String → String → Bool)
    (content : String) : List IgnorePattern :=
  let globalIgnores := ((content.splitOn "\n").map String.trim).filter
    (fun line => decide (line.length > 0) && !line.startsWith "#")
  globalIgnores.map (fun pattern =>
    let negated := pattern.startsWith "!"
    let pat := if negated then pattern.drop 1 else pattern
    { matcher := pm pat, negated := negated })

/-- The aggregate outputs of `exportResults` (main.ts lines 345–417):
the `changes` group-name list (`none` when a group is literally named
`changes`, in which case the output is skipped and a diagnostic logged
instead), and the `all_changed` / `any_changed` booleans.  The per-group
outputs, serialization and file writing are orthogonal to these
aggregates and are not modelled. -/
structure ExportAggregates where
  changes : Option (List String)
  all_changed : Bool
  any_changed : Bool
deriving DecidableEq, Repr

/-- The aggregate computation of `exportResults`: `changes` collects, in
iteration order, the names of groups with at least one file; `counter`
counts them; `all_changed` is `resultsObjLength === counter`;
`any_changed` is set when some group has files; the `changes` output is
`changes.filter((change) => change !== 'shared')` and is only set when no
group is named `changes` (main.ts lines 405–416). -/
def exportAggregates (results : List (String × List File)) :
    ExportAggregates :=
  let changes := (results.filter (fun kf => decide (kf.2.length > 0))).map
    Prod.fst
  let counter := (results.filter (fun kf => decide (kf.2.length > 0))).length
  let anyChanged := results.any (fun kf => decide (kf.2.length > 0))
  let allChanged := results.length == counter
  let changesOut :=
    if (results.find? (fun kf => kf.1 == "changes")).isNone then
      Option.some (changes.filter (fun change => change != "shared"))
    else none
  { changes := changesOut, all_changed := allChanged,
    any_changed := anyChanged }

/-! ## Specification-side predicates

The following predicates state, in the spec's words, when a rule fires,
when the positive/negative halves of a group match, when the
source-path-inclusion condition for path variants holds, and when the
strict-exclude check triggers.  They are compared with the embedded
source functions in the claim theorems. -/

/-- The spec's firing condition for one rule: the status set is absent or
contains the file's status, and some path variant satisfies the rule's
glob predicate. -/
def RuleFiresSpec (file : File) (rule : FilterRuleItem) : Prop :=
  (rule.status = none ∨ file.status.toStr ∈ rule.status.getD []) ∧
    ∃ v ∈ getFilePathVariants file rule, rule.isMatch v = true

/-- The spec's `positiveMatch`: true when the group has no non-negated
rules; otherwise under EVERY all non-negated rules fire, under SOME at
least one fires. -/
def PositiveMatchSpec (cfg : FilterConfig) (file : File)
    (rules : List FilterRuleItem) : Prop :=
  rules.filter (fun r => !r.negate) = [] ∨
    (cfg.predicateQuantifier = PredicateQuantifier.every ∧
      ∀ r ∈ rules.filter (fun r => !r.negate), RuleFiresSpec file r) ∨
    (cfg.predicateQuantifier = PredicateQuantifier.some ∧
      ∃ r ∈ rules.filter (fun r => !r.negate), RuleFiresSpec file r)

/-- The spec's `negativeMatch`: at least one negated rule fires (always
OR semantics). -/
def NegativeMatchSpec (file : File) (rules : List FilterRuleItem) : Prop :=
  ∃ r ∈ rules.filter (fun r => r.negate), RuleFiresSpec file r

/-- The spec's condition for including a file's origin paths (`from`,
`previous_filename`) among its path variants: the rule is not negated and
targets status `renamed`, or the rule does not target `renamed` and the
file is neither renamed nor copied. -/
def SourcePathCondition (file : File) (rule : FilterRuleItem) : Prop :=
  (rule.negate = false ∧ "renamed" ∈ rule.status.getD []) ∨
    ("renamed" ∉ rule.status.getD [] ∧ file.status ≠ ChangeStatus.renamed ∧
      file.status ≠ ChangeStatus.copied)

/-- The strict-exclude trigger as the code implements it: some file
remaining after global-ignore filtering has its *filename* matched by the
glob predicate of some `negate=true` rule of some group. -/
def StrictExcludeTriggered (flt : Filter) (files : List File) : Prop :=
  ∃ file ∈ Filter.globalFiltered flt files, ∃ kr ∈ flt.rules, ∃ r ∈ kr.2,
    r.negate = true ∧ r.isMatch file.filename = true

/-- The spec's global-ignore filtering: drop exactly the files whose
filename matches at least one non-negated ignore pattern. -/
def dropIgnored (pats : List IgnorePattern) (files : List File) :
    List File :=
  files.filter (fun file =>
    !(pats.any (fun ig => ig.matcher file.filename && !ig.negated)))

/-- The spec's line processing for the global-ignore file: split into
lines, trim, drop blank lines and lines starting with `#`. -/
def ignoreLines (content : String) : List String :=
  ((content.splitOn "\n").map String.trim).filter
    (fun line => !(line == "") && !line.startsWith "#")

/-- The spec's rule for one `paths-ignore` pattern: `negate` forced true,
no status, a leading `!` stripped before compiling. -/
def mkPathsIgnoreRule (pm : String → String → Bool) (p : String) :
    FilterRuleItem :=
  { status := none,
    isMatch := pm (if p.startsWith "!" then p.drop 1 else p),
    negate := true }

/-- The spec's list of matched group names: the groups, in order, whose
file list is non-empty. -/
def matchedGroupNames (results : List (String × List File)) :
    List String :=
  (results.filter (fun kf => !kf.2.isEmpty)).map Prod.fst

/-! ## Bridging lemmas -/

/-- Membership in `addVariant`. -/
theorem mem_addVariant {vs : List String} {v a : String} :
    a ∈ addVariant vs v ↔ a ∈ vs ∨ a = v := by
  unfold addVariant
  by_cases h : v ∈ vs
  · simp only [if_pos h]
    constructor
    · exact Or.inl
    · rintro (ha | rfl)
      · exact ha
      · exact h
  · simp [if_neg h]

/-- Membership in the path-variant list, characterized. -/
theorem mem_getFilePathVariants (file : File) (rule : FilterRuleItem)
    (a : String) :
    a ∈ getFilePathVariants file rule ↔
      a = file.filename ∨
      (file.«to» = Option.some a ∧ a ≠ "") ∨
      (shouldIncludeSourcePaths file rule = true ∧ a ≠ "" ∧
        (a = file.«from» ∨ file.previous_filename = Option.some a)) := by
  unfold getFilePathVariants
  rcases hto : file.«to» with _ | t <;>
    rcases hprev : file.previous_filename with _ | p <;>
    dsimp only <;>
    split_ifs <;>
    simp_all [mem_addVariant, Bool.and_eq_true, Bool.not_eq_true',
      beq_iff_eq] <;>
    aesop

/-- The code's source-path condition agrees with the spec's. -/
theorem shouldIncludeSourcePaths_iff (file : File) (rule : FilterRuleItem) :
    shouldIncludeSourcePaths file rule = true ↔
      SourcePathCondition file rule := by
  unfold shouldIncludeSourcePaths SourcePathCondition
  dsimp only
  rcases hn : rule.negate <;> cases hst : file.status <;>
    by_cases hr : "renamed" ∈ rule.status.getD [] <;>
    simp_all [beq_iff_eq]

/-- `aPredicate` agrees with the spec's firing condition. -/
theorem aPredicate_iff (file : File) (rule : FilterRuleItem) :
    aPredicate file rule = true ↔ RuleFiresSpec file rule := by
  unfold aPredicate RuleFiresSpec
  rcases h : rule.status with _ | l <;> dsimp only <;>
    simp [List.any_eq_true, List.elem_iff]

/-- C1.  `Filter.isMatch` returns `positiveMatch && !negativeMatch` with
the spec's quantifier semantics for positives, OR semantics for negatives;
in particular a file firing a positive and a negative rule of the same
group is excluded under either quantifier. -/
theorem isMatch_quantifier_negation_spec (cfg : FilterConfig) (file : File)
    (rules : List FilterRuleItem) :
    (Filter.isMatch cfg file rules = true ↔
      (PositiveMatchSpec cfg file rules ∧ ¬ NegativeMatchSpec file rules)) ∧
    (∀ p ∈ rules, p.negate = false → RuleFiresSpec file p →
      ∀ n ∈ rules, n.negate = true → RuleFiresSpec file n →
        Filter.isMatch cfg file rules = false) := by
  have hiff : Filter.isMatch cfg file rules = true ↔
      (PositiveMatchSpec cfg file rules ∧ ¬ NegativeMatchSpec file rules) := by
    unfold Filter.isMatch PositiveMatchSpec NegativeMatchSpec
    dsimp only
    rcases hP : rules.filter (fun r => !r.negate) with _ | ⟨r0, rs⟩ <;>
      rcases hq : cfg.predicateQuantifier <;>
      simp [hP, hq, List.all_eq_true, List.any_eq_true, aPredicate_iff,
        beq_iff_eq]
  refine ⟨hiff, ?_⟩
  intro p hp hpneg hpf n hn hnneg hnf
  have hneg : NegativeMatchSpec file rules :=
    ⟨n, List.mem_filter.mpr ⟨hn, by simp [hnneg]⟩, hnf⟩
  have hne : ¬ (Filter.isMatch cfg file rules = true) :=
    fun h => ((hiff.mp h).2 hneg)
  exact Bool.not_eq_true _ |>.mp hne

/-! ## C2: path variants -/

/-- A renamed file whose origin path coincides with its destination path:
a legal `File` value (the code nowhere requires `from ≠ filename`). -/
def fileRenSameFrom : File :=
  { filename := "a.txt", status := ChangeStatus.renamed, «from» := "a.txt",
    «to» := Option.some "b.txt" }

/-- A rule with no status constraint and no negation. -/
def ruleAnyPath : FilterRuleItem := { isMatch := fun _ => true }

/-- C2, counterexample.  The claim's "contains `f.from` exactly when …"
fails: for a renamed file and a rule with no status constraint the
condition is false, yet `f.from` is a member of the variant list because
it coincides with `f.filename`. -/
theorem getFilePathVariants_from_iff_false :
    ¬ SourcePathCondition fileRenSameFrom ruleAnyPath ∧
      fileRenSameFrom.«from» ∈
        getFilePathVariants fileRenSameFrom ruleAnyPath := by
  constructor
  · intro h
    rcases h with ⟨_, h⟩ | ⟨_, h, _⟩
    · simp [ruleAnyPath] at h
    · exact h rfl
  · decide

/-- C2, amended.  The variant list always contains `f.filename` and any
present non-empty `f.to`; it contains `f.from` and any present non-empty
`f.previous_filename` whenever the source-path condition holds (and they
are non-empty — JS truthiness skips empty strings); and when the condition
fails, every variant is the filename or the destination, so an
origin-only pattern cannot match. -/
theorem getFilePathVariants_membership_spec (file : File)
    (rule : FilterRuleItem) :
    (file.filename ∈ getFilePathVariants file rule) ∧
    (∀ t, file.«to» = Option.some t → t ≠ "" →
      t ∈ getFilePathVariants file rule) ∧
    (SourcePathCondition file rule → file.«from» ≠ "" →
      file.«from» ∈ getFilePathVariants file rule) ∧
    (SourcePathCondition file rule → ∀ p,
      file.previous_filename = Option.some p → p ≠ "" →
      p ∈ getFilePathVariants file rule) ∧
    (¬ SourcePathCondition file rule → ∀ v ∈ getFilePathVariants file rule,
      v = file.filename ∨ file.«to» = Option.some v) := by
  refine ⟨?_, ?_, ?_, ?_, ?_⟩
  · exact (mem_getFilePathVariants file rule _).mpr (Or.inl rfl)
  · intro t ht hne
    exact (mem_getFilePathVariants file rule _).mpr
      (Or.inr (Or.inl ⟨ht, hne⟩))
  · intro hc hne
    exact (mem_getFilePathVariants file rule _).mpr
      (Or.inr (Or.inr ⟨(shouldIncludeSourcePaths_iff file rule).mpr hc,
        hne, Or.inl rfl⟩))
  · intro hc p hp hne
    exact (mem_getFilePathVariants file rule _).mpr
      (Or.inr (Or.inr ⟨(shouldIncludeSourcePaths_iff file rule).mpr hc,
        hne, Or.inr hp⟩))
  · intro hnc v hv
    rcases (mem_getFilePathVariants file rule v).mp hv with
      h | ⟨h1, _⟩ | ⟨hs, _, _⟩
    · exact Or.inl h
    · exact Or.inr h1
    · exact absurd ((shouldIncludeSourcePaths_iff file rule).mp hs) hnc

/-! ## C3: strict excludes -/

/-- The code's strict-exclude boolean agrees with
`StrictExcludeTriggered`. -/
theorem hasExcludedFile_iff (flt : Filter) (files : List File) :
    Filter.hasExcludedFile flt (Filter.globalFiltered flt files) = true ↔
      StrictExcludeTriggered flt files := by
  unfold Filter.hasExcludedFile StrictExcludeTriggered
    Filter.allNegativePatterns
  simp only [List.any_eq_true, List.mem_map, List.mem_filter,
    List.mem_flatten]
  aesop

/-- A file whose origin path differs from its destination path. -/
def strictFile : File :=
  { filename := "new.txt", status := ChangeStatus.added,
    «from» := "old.txt" }

/-- A negated rule whose pattern matches only the origin path. -/
def strictNegRule : FilterRuleItem :=
  { isMatch := fun s => s == "old.txt", negate := true }

/-- An unconstrained positive rule. -/
def strictPosRule : FilterRuleItem := { isMatch := fun _ => true }

/-- A two-group configuration with strict excludes enabled. -/
def strictFlt : Filter :=
  { rules := [("g", [strictNegRule]), ("h", [strictPosRule])],
    filterConfig := { predicateQuantifier := PredicateQuantifier.some,
                      strictExcludes := true } }

/-- C3, counterexample.  Strict excludes is enabled and a remaining file
has a path variant (`old.txt`, its origin) matched by a `negate=true`
rule, yet not every group's result is empty: the strict-exclude check in
the code compares only `file.filename` (`new.txt`) against the negative
patterns, so it does not trigger here. -/
theorem strict_excludes_variant_claim_false :
    strictFlt.filterConfig.strictExcludes = true ∧
    (∃ file ∈ Filter.globalFiltered strictFlt [strictFile],
      ∃ kr ∈ strictFlt.rules, ∃ r ∈ kr.2,
        r.negate = true ∧ (getFilePathVariants file r).any r.isMatch = true) ∧
    ¬ (∀ kr ∈ Filter.«match» strictFlt [strictFile], kr.2 = []) := by
  decide

/-- C3, amended.  With strict excludes enabled, if some remaining file's
*filename* matches the glob predicate of some `negate=true` rule of any
group, every group's result is empty (and the code logs a warning);
otherwise matching proceeds exactly as in per-group evaluation. -/
theorem strict_excludes_filename_blanks_all_groups (flt : Filter)
    (files : List File)
    (hs : flt.filterConfig.strictExcludes = true) :
    (StrictExcludeTriggered flt files →
      ∀ kr ∈ Filter.«match» flt files, kr.2 = []) ∧
    (¬ StrictExcludeTriggered flt files →
      Filter.«match» flt files =
        flt.rules.map (fun kr =>
          (kr.1, (Filter.globalFiltered flt files).filter (fun file =>
            Filter.isMatch flt.filterConfig file kr.2)))) := by
  constructor
  · intro ht kr hkr
    unfold Filter.«match» at hkr
    dsimp only at hkr
    rw [hs, (hasExcludedFile_iff flt files).mpr ht] at hkr
    simp only [Bool.and_self, if_true, List.filter_nil,
      List.mem_map] at hkr
    obtain ⟨kr0, _, rfl⟩ := hkr
    rfl
  · intro hnt
    have hfalse : Filter.hasExcludedFile flt
        (Filter.globalFiltered flt files) = false := by
      rcases h : Filter.hasExcludedFile flt
        (Filter.globalFiltered flt files) with _ | _
      · rfl
      · exact absurd ((hasExcludedFile_iff flt files).mp h) hnt
    unfold Filter.«match»
    dsimp only
    rw [hs, hfalse]
    simp

/-! ## C4: global ignore filtering and loading -/

/-- A string has positive length exactly when it is not empty (JS
`line.length > 0` versus "not blank"). -/
theorem string_length_pos_decide (s : String) :
    decide (0 < s.length) = !(s == "") := by
  have hlen : s.length = 0 ↔ s = "" := by
    constructor
    · intro h
      cases s with
      | mk data =>
        cases data with
        | nil => rfl
        | cons a l => simp [String.length] at h
    · intro h
      subst h
      rfl
  by_cases h : s = ""
  · subst h
    rfl
  · have hpos : 0 < s.length :=
      Nat.pos_of_ne_zero (fun h0 => h (hlen.mp h0))
    simp [h, hpos]

/-- Global-ignore filtering ignores the negated entries entirely. -/
theorem globalFiltered_drops_negated (flt : Filter) (files : List File) :
    Filter.globalFiltered flt files =
      Filter.globalFiltered
        { flt with globalIgnorePatterns :=
            flt.globalIgnorePatterns.filter (fun ig => !ig.negated) }
        files := by
  unfold Filter.globalFiltered
  dsimp only
  refine List.filter_congr (fun x _ => ?_)
  have hfun : (fun a : IgnorePattern =>
        !a.negated && (a.matcher x.filename && !a.negated)) =
      (fun a : IgnorePattern => a.matcher x.filename && !a.negated) :=
    funext (fun a => by cases hn : a.negated <;> simp [hn])
  rw [List.any_filter, hfun]

/-- C4.  `match` first drops exactly the files whose filename matches a
non-negated global ignore pattern — equivalently, it behaves as if the
ignore list were empty and the dropped files removed up front — negated
ignore entries never un-ignore a file (they can be discarded without
changing any result), and the ignore file's content is processed
line-by-line into patterns with the `!` prefix recorded in `negated` and
stripped before compiling. -/
theorem global_ignore_first_and_literal (flt : Filter) (files : List File)
    (pm : String → String → Bool) (content : String) :
    (Filter.«match» flt files =
      Filter.«match» { flt with globalIgnorePatterns := [] }
        (dropIgnored flt.globalIgnorePatterns files)) ∧
    (Filter.«match» flt files =
      Filter.«match»
        { flt with globalIgnorePatterns :=
            flt.globalIgnorePatterns.filter (fun ig => !ig.negated) }
        files) ∧
    (parseGlobalIgnoreContent pm content =
      (ignoreLines content).map (fun line =>
        { matcher := pm (if line.startsWith "!" then line.drop 1 else line),
          negated := line.startsWith "!" })) := by
  refine ⟨?_, ?_, ?_⟩
  · have hGF : Filter.globalFiltered
        { flt with globalIgnorePatterns := [] }
        (dropIgnored flt.globalIgnorePatterns files) =
        Filter.globalFiltered flt files := by
      unfold Filter.globalFiltered dropIgnored
      simp
    unfold Filter.«match»
    rw [hGF]
    rfl
  · have hGF : Filter.globalFiltered
        { flt with globalIgnorePatterns :=
            flt.globalIgnorePatterns.filter (fun ig => !ig.negated) }
        files = Filter.globalFiltered flt files :=
      (globalFiltered_drops_negated flt files).symm
    unfold Filter.«match»
    rw [hGF]
    rfl
  · have hf : ((content.splitOn "\n").map String.trim).filter
        (fun line => decide (line.length > 0) && !line.startsWith "#") =
        ((content.splitOn "\n").map String.trim).filter
          (fun line => !(line == "") && !line.startsWith "#") :=
      List.filter_congr (fun x _ => by rw [string_length_pos_decide])
    unfold parseGlobalIgnoreContent ignoreLines
    rw [hf]

/-- C3, witness for the amended theorem at the concrete two-group
configuration. -/
theorem strict_excludes_filename_blanks_all_groups_witness :
    (StrictExcludeTriggered strictFlt [strictFile] →
      ∀ kr ∈ Filter.«match» strictFlt [strictFile], kr.2 = []) ∧
    (¬ StrictExcludeTriggered strictFlt [strictFile] →
      Filter.«match» strictFlt [strictFile] =
        strictFlt.rules.map (fun kr =>
          (kr.1, (Filter.globalFiltered strictFlt [strictFile]).filter
            (fun file =>
              Filter.isMatch strictFlt.filterConfig file kr.2)))) :=
  strict_excludes_filename_blanks_all_groups strictFlt [strictFile] rfl

/-! ## C5: construction-time errors -/

/-- Whether a YAML value is a string or an array (the shapes a
status-object entry's value may legally take). -/
def isStringOrArray : YamlValue → Bool
  | .str _ => true
  | .arr _ => true
  | _ => false

/-- A concrete glob compiler for counterexamples and witnesses. -/
def pmNone : String → String → Bool := fun _ _ => false

/-- C5, counterexample.  The rule specification `{added: [5]}` is none of
the claim's valid shapes (its value is an array of numbers, not of
strings), so per the claim construction must fail with an
`Invalid filter YAML format` error — but the code only checks
`Array.isArray`, then calls `p.startsWith` on the number, which raises a
JS `TypeError` instead. -/
theorem parse_invalid_format_claim_false :
    (parseFilterItemYaml pmNone
        (YamlValue.obj [("added", YamlValue.arr [YamlValue.num 5])]) =
      Except.error (ParseError.typeError "p.startsWith is not a function")) ∧
    (∀ msg, parseFilterItemYaml pmNone
        (YamlValue.obj [("added", YamlValue.arr [YamlValue.num 5])]) ≠
      Except.error (ParseError.invalidFormat msg)) := by
  have h1 : parseFilterItemYaml pmNone
      (YamlValue.obj [("added", YamlValue.arr [YamlValue.num 5])]) =
      Except.error (ParseError.typeError "p.startsWith is not a function") := by
    rfl
  refine ⟨h1, ?_⟩
  intro msg h
  rw [h1] at h
  simp at h

/-- C5, amended.  The `Invalid filter YAML format` error is raised for a
root that is not a JS object (string, number, boolean, `null`), for a rule
specification that is a number, boolean or `null`, and for a status-object
entry whose value is neither a string nor an array; but an entry whose
value is an *array containing a non-string* (legal YAML such as
`added: [5]`) raises a JS `TypeError` from `p.startsWith` instead of the
format error.  In every case the constructor propagates the exception, so
no partially constructed rule set escapes. -/
theorem parse_error_taxonomy (pm : String → String → Bool) :
    (∀ s, parseFilterRoot pm (YamlValue.str s) =
      Except.error (ParseError.invalidFormat "Expected object")) ∧
    (∀ n, parseFilterRoot pm (YamlValue.num n) =
      Except.error (ParseError.invalidFormat "Expected object")) ∧
    (∀ b, parseFilterRoot pm (YamlValue.boolean b) =
      Except.error (ParseError.invalidFormat "Expected object")) ∧
    (parseFilterRoot pm YamlValue.null =
      Except.error (ParseError.invalidFormat "Expected object")) ∧
    (∀ n, parseFilterItemYaml pm (YamlValue.num n) =
      Except.error
        (ParseError.invalidFormat "Unexpected element type 'number'")) ∧
    (∀ b, parseFilterItemYaml pm (YamlValue.boolean b) =
      Except.error
        (ParseError.invalidFormat "Unexpected element type 'boolean'")) ∧
    (parseFilterItemYaml pm YamlValue.null =
      Except.error
        (ParseError.invalidFormat "Unexpected element type 'object'")) ∧
    (∀ key v rest, isStringOrArray v = false →
      (((key, v) :: rest).map Prod.fst).contains "paths-ignore" = false →
      ∃ msg, parseFilterItemYaml pm (YamlValue.obj ((key, v) :: rest)) =
        Except.error (ParseError.invalidFormat msg)) ∧
    (∀ key n, parseFilterItemYaml pm
        (YamlValue.obj [(key, YamlValue.arr [YamlValue.num n])]) =
      Except.error (ParseError.typeError "p.startsWith is not a function")) := by
  refine ⟨fun s => rfl, fun n => rfl, fun b => rfl, rfl,
    fun n => rfl, fun b => rfl, rfl, ?_, ?_⟩
  · intro key v rest hv hc
    rw [parseFilterItemYaml, hc]
    simp only [Bool.false_eq_true, if_false]
    cases v with
    | str s => simp [isStringOrArray] at hv
    | arr xs => simp [isStringOrArray] at hv
    | num m => exact ⟨_, rfl⟩
    | boolean b => exact ⟨_, rfl⟩
    | null => exact ⟨_, rfl⟩
    | obj es => exact ⟨_, rfl⟩
  · intro key n
    by_cases hk : key = "paths-ignore"
    · subst hk
      rfl
    · rw [parseFilterItemYaml]
      have hc : (([(key, YamlValue.arr [YamlValue.num n])]).map
          Prod.fst).contains "paths-ignore" = false := by
        simp only [List.map_cons, List.map_nil, List.contains_cons,
          List.contains_nil, Bool.or_false, beq_eq_false_iff_ne, ne_eq]
        exact fun h => hk h.symm
      rw [hc]
      simp only [Bool.false_eq_true, if_false]
      rfl

/-! ## C6: paths-ignore forces negation -/

/-- `parsePathsIgnorePatterns` on a list of strings. -/
theorem parsePathsIgnorePatterns_strings (pm : String → String → Bool)
    (ps : List String) :
    parsePathsIgnorePatterns pm (ps.map YamlValue.str) =
      Except.ok (ps.map (mkPathsIgnoreRule pm)) := by
  induction ps with
  | nil => rfl
  | cons p ps ih =>
      rw [List.map_cons, parsePathsIgnorePatterns, ih]
      rfl

/-- C6.  A `paths-ignore` object (whatever other keys follow it) yields
one rule per pattern with `negate = true` and no status constraint; a
leading `!` is stripped before compiling the glob but does not toggle the
`negate` flag. -/
theorem paths_ignore_always_negates (pm : String → String → Bool)
    (rest : List (String × YamlValue)) :
    (∀ s : String, parseFilterItemYaml pm
        (YamlValue.obj (("paths-ignore", YamlValue.str s) :: rest)) =
      Except.ok [mkPathsIgnoreRule pm s]) ∧
    (∀ ps : List String, parseFilterItemYaml pm
        (YamlValue.obj
          (("paths-ignore", YamlValue.arr (ps.map YamlValue.str)) :: rest)) =
      Except.ok (ps.map (mkPathsIgnoreRule pm))) := by
  constructor
  · intro s
    rfl
  · intro ps
    show parsePathsIgnorePatterns pm (List.map YamlValue.str ps) = _
    exact parsePathsIgnorePatterns_strings pm ps

/-! ## C7: match is pure and idempotent -/

/-- C7.  `match` leaves the instance state unchanged, and a second call
with the same file list on the post-call state returns the same result:
there is no hidden per-call state. -/
theorem match_stateless_idempotent (flt : Filter) (files : List File) :
    ((Filter.matchWithState flt files).2 = flt) ∧
    ((Filter.matchWithState
        ((Filter.matchWithState flt files).2) files).1 =
      (Filter.matchWithState flt files).1) :=
  ⟨rfl, rfl⟩

/-! ## C8: EVERY-quantifier monotonicity -/

/-- Under EVERY, adding a non-negated rule can only lose matches. -/
theorem isMatch_every_append_mono (cfg : FilterConfig) (f : File)
    (rules : List FilterRuleItem) (r : FilterRuleItem)
    (hq : cfg.predicateQuantifier = PredicateQuantifier.every)
    (hr : r.negate = false) :
    Filter.isMatch cfg f (rules ++ [r]) = true →
      Filter.isMatch cfg f rules = true := by
  intro h
  unfold Filter.isMatch at h ⊢
  dsimp only at h ⊢
  rw [List.filter_append, List.filter_append] at h
  simp only [List.filter_cons, List.filter_nil, hr, Bool.not_false,
    if_true, Bool.false_eq_true, if_false, List.append_nil] at h
  rcases hP : rules.filter (fun r => !r.negate) with _ | ⟨p0, ps⟩ <;>
    rw [hP] at h ⊢ <;>
    simp_all [hq, List.all_append, List.any_eq_true, List.all_eq_true]

/-- C8.  Under the EVERY quantifier, the match set of a group extended
with one more non-negated rule is a subset of the group's match set
without it. -/
theorem every_quantifier_monotone (cfg : FilterConfig) (files : List File)
    (rules : List FilterRuleItem) (r : FilterRuleItem)
    (hq : cfg.predicateQuantifier = PredicateQuantifier.every)
    (hr : r.negate = false) :
    (files.filter (fun f => Filter.isMatch cfg f (rules ++ [r]))) ⊆
      (files.filter (fun f => Filter.isMatch cfg f rules)) := by
  intro a ha
  rw [List.mem_filter] at ha ⊢
  exact ⟨ha.1, isMatch_every_append_mono cfg a rules r hq hr ha.2⟩

/-- The EVERY configuration used by the C8 witness. -/
def cfgEveryW : FilterConfig :=
  { predicateQuantifier := PredicateQuantifier.every }

/-- A concrete modified file for the C8 witness. -/
def fileW : File :=
  { filename := "w.txt", status := ChangeStatus.modified, «from» := "w.txt" }

/-- A positive rule matching everything. -/
def baseRuleW : FilterRuleItem := { isMatch := fun _ => true }

/-- A positive rule matching only `w.txt`. -/
def extraRuleW : FilterRuleItem := { isMatch := fun s => s == "w.txt" }

/-- C8, witness at a concrete configuration, file list and rule pair. -/
theorem every_quantifier_monotone_witness :
    ([fileW].filter (fun f =>
        Filter.isMatch cfgEveryW f ([baseRuleW] ++ [extraRuleW]))) ⊆
      ([fileW].filter (fun f => Filter.isMatch cfgEveryW f [baseRuleW])) :=
  every_quantifier_monotone cfgEveryW [fileW] [baseRuleW] extraRuleW rfl rfl

/-! ## C9: exporter aggregates -/

/-- A concrete file for the C9 counterexample. -/
def sharedFile : File :=
  { filename := "s.ts", status := ChangeStatus.modified, «from» := "s.ts" }

/-- C9, counterexample.  With a single matched group literally named
`shared`, the claim says the `changes` output is `["shared"]`, but the
code filters the name `shared` out of the aggregate and outputs `[]`. -/
theorem changes_output_excludes_shared :
    matchedGroupNames [("shared", [sharedFile])] = ["shared"] ∧
    (exportAggregates [("shared", [sharedFile])]).changes =
      Option.some [] ∧
    (exportAggregates [("shared", [sharedFile])]).changes ≠
      Option.some (matchedGroupNames [("shared", [sharedFile])]) := by
  decide

/-- `decide (0 < l.length)` is `!l.isEmpty`. -/
theorem decide_length_pos {α : Type} (l : List α) :
    decide (0 < l.length) = !l.isEmpty := by
  cases l <;> simp

/-- C9, amended.  The `changes` output is the list of matched group
names *with any group literally named `shared` removed*, set only when no
group is named `changes` (otherwise it is skipped and a diagnostic
logged); `all_changed` is true iff every group matched at least one file
and `any_changed` iff some group did. -/
theorem export_aggregates_spec (results : List (String × List File)) :
    ((∀ kf ∈ results, kf.1 ≠ "changes") →
      (exportAggregates results).changes =
        Option.some ((matchedGroupNames results).filter
          (fun c => c != "shared"))) ∧
    ((∃ kf ∈ results, kf.1 = "changes") →
      (exportAggregates results).changes = none) ∧
    ((exportAggregates results).all_changed = true ↔
      ∀ kf ∈ results, kf.2 ≠ []) ∧
    ((exportAggregates results).any_changed = true ↔
      ∃ kf ∈ results, kf.2 ≠ []) := by
  have hfun : (fun kf : String × List File => decide (kf.2.length > 0)) =
      (fun kf : String × List File => !kf.2.isEmpty) :=
    funext (fun kf => decide_length_pos kf.2)
  unfold exportAggregates matchedGroupNames
  dsimp only
  refine ⟨?_, ?_, ?_, ?_⟩
  · intro h
    have hfind : results.find? (fun kf => kf.1 == "changes") = none := by
      rw [List.find?_eq_none]
      intro x hx
      simp [h x hx]
    rw [hfind, hfun]
    rfl
  · rintro ⟨kf, hkf, hch⟩
    rcases hf : results.find? (fun kf => kf.1 == "changes") with _ | x
    · exact absurd (by simpa using List.find?_eq_none.mp hf kf hkf) (by simp [hch])
    · simp [hf]
  · rw [beq_iff_eq]
    constructor
    · intro h kf hkf
      have hall := List.filter_length_eq_length.mp h.symm kf hkf
      simpa [List.length_pos] using hall
    · intro h
      exact (List.filter_length_eq_length.mpr (fun a ha => by
        simpa [List.length_pos] using h a ha)).symm
  · simp [List.any_eq_true, List.length_pos]

/-! ## C10: completeness and order of the result mapping -/

/-- C10.  The result of `match` has exactly one entry per rule group, in
rule-map order (groups with no matching files map to `[]` rather than
being omitted), and each group's file list is a sublist of the input list
(so files keep their input order). -/
theorem match_results_complete_and_ordered (flt : Filter)
    (files : List File) :
    ((Filter.«match» flt files).map Prod.fst = flt.rules.map Prod.fst) ∧
    (∀ e ∈ Filter.«match» flt files, e.2.Sublist files) := by
  constructor
  · unfold Filter.«match»
    dsimp only
    rw [List.map_map]
    rfl
  · intro e he
    unfold Filter.«match» at he
    dsimp only at he
    rw [List.mem_map] at he
    obtain ⟨kr, hkr, rfl⟩ := he
    dsimp only
    have hsub : (if flt.filterConfig.strictExcludes &&
        Filter.hasExcludedFile flt (Filter.globalFiltered flt files) then
          ([] : List File)
        else Filter.globalFiltered flt files).Sublist files := by
      split
      · exact List.nil_sublist files
      · exact List.filter_sublist files
    exact (List.filter_sublist _).trans hsub

end PathsFilter
